import Mathlib

/-!
Verification development for the ClipperStudio repository
(`clipperstudio/utils.py`, `models.py`, `workspace.py`, `pipeline.py`).

Time values that Python represents as `float` are modelled as rationals
(`ℚ`); all arithmetic the planner performs on them (addition, subtraction,
`min`, comparison) is exact on the concrete values of interest, so `ℚ` is a
faithful model of the computations.  Machine integers are modelled as `ℤ`.
The `while` loop of `generate_clip_plan` is modelled with explicit fuel,
because for some parameter combinations the Python loop does not terminate;
`none` means the loop was still running when the fuel was exhausted.
-/

namespace ClipperStudio

/-- Embedding of `utils.format_timedelta`, restricted to integer inputs
(the callers in `workspace.estimate_completion` pass an integer sum, for
which Python's `round` is the identity).  `timedelta(seconds=s)` stores
`s // 86400` days and `s % 86400` seconds; the function then splits the
latter into hours/minutes/seconds and joins the non-zero parts. -/
def format_timedelta (seconds : ℤ) : String :=
  let s : ℕ := (max 0 seconds).toNat
  let days := s / 86400
  let rem0 := s % 86400
  let hours := rem0 / 3600
  let remainder := rem0 % 3600
  let minutes := remainder / 60
  let secs := remainder % 60
  let p1 : List String := if days ≠ 0 then [toString days ++ "d"] else []
  let p2 : List String := p1 ++ (if hours ≠ 0 then [toString hours ++ "h"] else [])
  let p3 : List String := p2 ++ (if minutes ≠ 0 then [toString minutes ++ "m"] else [])
  let p4 : List String :=
    p3 ++ (if secs ≠ 0 ∨ p3 = [] then [toString secs ++ "s"] else [])
  String.intercalate " " p4

/-- The `while start < duration` loop of `utils.generate_clip_plan`,
with the already-floored `clip_duration` (`cd`) and `overlap` (`ov`).
Each iteration appends `(start, min (start + cd) duration)`, advances
`start` to `start + cd - ov` and breaks when the new start reaches
`duration`.  `fuel` bounds the number of iterations; `none` means the
loop did not finish within `fuel` iterations. -/
def clipLoop (cd ov : ℤ) (d : ℚ) : ℕ → ℚ → Option (List (ℚ × ℚ))
  | 0, _ => none
  | fuel + 1, start =>
    if start < d then
      let e := start + (cd : ℚ)
      let s' := e - (ov : ℚ)
      if d ≤ s' then some [(start, min e d)]
      else (clipLoop cd ov d fuel s').map (fun l => (start, min e d) :: l)
    else some []

/-- The final-clip fixup of `utils.generate_clip_plan` applied to the last
clip `c` of a plan of `count` clips: if the clip is shorter than
`final_min` and it is not the only clip, its start is pulled back by the
deficit (clamped at 0); otherwise, if it is longer than `final_max`, its
start is pulled forward so that the length is exactly `final_max`. -/
def adjustLast (final_min final_max : ℤ) (count : ℕ) (c : ℚ × ℚ) : ℚ × ℚ :=
  if c.2 - c.1 < (final_min : ℚ) ∧ 1 < count then
    (max 0 (c.1 - ((final_min : ℚ) - (c.2 - c.1))), c.2)
  else if (final_max : ℚ) < c.2 - c.1 then (c.2 - (final_max : ℚ), c.2)
  else c

/-- `clips[-1] = adjusted` of `utils.generate_clip_plan`: every clip but
the last is kept, the last one is replaced by its adjusted version. -/
def adjustFinal (final_min final_max : ℤ) (clips : List (ℚ × ℚ)) :
    List (ℚ × ℚ) :=
  match clips.getLast? with
  | none => []
  | some c => clips.dropLast ++ [adjustLast final_min final_max clips.length c]

/-- Embedding of `utils.generate_clip_plan`.  `fuel` bounds the number of
loop iterations (the Python loop is unbounded); `none` means the loop was
still running after `fuel` iterations. -/
def generate_clip_plan (fuel : ℕ) (duration : ℚ)
    (clip_duration overlap final_min final_max : ℤ) :
    Option (List (ℚ × ℚ)) :=
  if duration ≤ 0 then some []
  else
    (clipLoop (max 1 clip_duration) (max 0 overlap) duration fuel 0).map
      (adjustFinal final_min final_max)

/-- Embedding of `utils.randomise_interval`.  The randomness source
`rng lo hi` stands for Python's `rng.randint(lo, hi)`; results are stated
under the `randint` contract `lo ≤ rng lo hi ≤ hi`. -/
def randomise_interval (base_seconds variation_seconds : ℤ)
    (rng : ℤ → ℤ → ℤ) : ℤ :=
  max 0 (rng (base_seconds - variation_seconds)
    (base_seconds + variation_seconds))

/-- Cumulative-sum helper `utils.cumulative`. -/
def cumulative (sequence : List ℤ) : List ℤ :=
  (sequence.foldl (fun (acc : ℤ × List ℤ) item =>
    (acc.1 + item, acc.2 ++ [acc.1 + item])) (0, [])).2

/-- The per-iteration advance of the planner's loop after flooring:
`max 1 clip_duration - max 0 overlap`. -/
def planStep (clip_duration overlap : ℤ) : ℤ :=
  max 1 clip_duration - max 0 overlap

/-- Number of clips the planner's loop emits for a positive duration when
the advance is positive: the least `n` with `n * planStep ≥ duration`. -/
def rawClipCount (duration : ℚ) (clip_duration overlap : ℤ) : ℕ :=
  (⌈duration / ((planStep clip_duration overlap : ℤ) : ℚ)⌉).toNat

/-- The `i`-th clip the planner's loop emits:
`(i*step, min (i*step + clipDuration) duration)`. -/
def rawClip (duration : ℚ) (clip_duration overlap : ℤ) (i : ℕ) : ℚ × ℚ :=
  (((i : ℚ)) * ((planStep clip_duration overlap : ℤ) : ℚ),
   min (((i : ℚ)) * ((planStep clip_duration overlap : ℤ) : ℚ)
        + ((max 1 clip_duration : ℤ) : ℚ)) duration)

/-! ## models.py -/

/-- Embedding of `models.JobStage`. -/
inductive JobStage
  | queued
  | downloading
  | processing
  | publishing
  | completed
  | failed
  deriving DecidableEq, Repr

/-- Embedding of `models.ClipTiming`. -/
structure ClipTiming where
  index : ℕ
  start : ℚ
  «end» : ℚ
  duration : ℚ
  publish_after_seconds : ℤ
  deriving DecidableEq, Repr

/-- The slice of `models.VideoJob` state the job-lifecycle claims are
about: the stage, the optional error message, and whether the three
per-job directories that `pipeline.cleanup` may remove still exist. -/
structure JobState where
  status : JobStage
  error : Option String
  downloadDirPresent : Bool
  processingDirPresent : Bool
  clipsDirPresent : Bool
  deriving DecidableEq, Repr

/-- Embedding of `models.VideoJob.update_status`: sets both fields;
Python's default for `error` is `None`, which call sites that pass one
argument use (modelled by passing `none` explicitly). -/
def update_status (j : JobState) (status : JobStage)
    (error : Option String) : JobState :=
  { j with status := status, error := error }

/-- The `pipeline.process_job` derivation of the clip plan from the
planner's ranges (pipeline.py lines 445-454): enumerate the ranges,
an index, the bounds, the derived duration, and a zero publish delay. -/
def make_clip_plan (ranges : List (ℚ × ℚ)) : List ClipTiming :=
  ranges.enum.map fun p =>
    { index := p.1, start := p.2.1, «end» := p.2.2,
      duration := p.2.2 - p.2.1, publish_after_seconds := 0 }

/-! ## workspace.py -/

/-- The per-clip term of `WorkspaceController.estimate_completion`:
`clip.publish_after_seconds if clip.publish_after_seconds else max(0, base)`
(Python truthiness: a zero delay counts as unset). -/
def clipInterval (base : ℤ) (c : ClipTiming) : ℤ :=
  if c.publish_after_seconds ≠ 0 then c.publish_after_seconds else max 0 base

/-- The summed estimate of `WorkspaceController.estimate_completion`. -/
def estimateSeconds (base : ℤ) (clip_plan : List ClipTiming) : ℤ :=
  (clip_plan.map (clipInterval base)).sum

/-- Embedding of `WorkspaceController.estimate_completion` (the job is
represented by its clip plan; `base` is
`settings.publication.publish_interval.seconds`). -/
def estimate_completion (base : ℤ) (clip_plan : List ClipTiming) :
    Option String :=
  if clip_plan = [] then none
  else if estimateSeconds base clip_plan ≤ 0 then none
  else some (format_timedelta (estimateSeconds base clip_plan))

/-! ## pipeline.py: overlay geometry -/

/-- The nine anchors understood by `ClipperPipeline._anchor_offset`
(any unknown string falls through to `center`, which the enum's
`center` constructor also covers). -/
inductive Anchor
  | topleft
  | topright
  | bottomleft
  | bottomright
  | top
  | bottom
  | left
  | right
  | center
  deriving DecidableEq, Repr

/-- Embedding of `ClipperPipeline._anchor_offset`; Python's `//` is floor
division, hence `Int.fdiv`. -/
def anchor_offset (anchor : Anchor) (width height : ℤ) : ℤ × ℤ :=
  match anchor with
  | .topleft => (0, 0)
  | .topright => (-width, 0)
  | .bottomleft => (0, -height)
  | .bottomright => (-width, -height)
  | .top => (Int.fdiv (-width) 2, 0)
  | .bottom => (Int.fdiv (-width) 2, -height)
  | .left => (0, Int.fdiv (-height) 2)
  | .right => (-width, Int.fdiv (-height) 2)
  | .center => (Int.fdiv (-width) 2, Int.fdiv (-height) 2)

/-- Python's `round` (round-half-to-even) on an exact rational value. -/
def pyRound (q : ℚ) : ℤ :=
  let f := ⌊q⌋
  let frac := q - (f : ℚ)
  if frac < 1 / 2 then f
  else if 1 / 2 < frac then f + 1
  else if f % 2 = 0 then f else f + 1

/-- Embedding of the local `clamp_overlay` of
`ClipperPipeline.render_clips` (pipeline.py lines 206-215). -/
def clamp_overlay (value canvas_extent target_extent : ℤ) : ℤ :=
  if value < min 0 (canvas_extent - target_extent) then
    min 0 (canvas_extent - target_extent)
  else if max 0 (canvas_extent - target_extent) < value then
    max 0 (canvas_extent - target_extent)
  else value

/-- One axis of the overlay computation of `render_clips` (lines
199-218): `overlay = clamp(round(v + anchorOffset), canvas, target)`,
where `off` is the matching component of `anchor_offset`. -/
def overlay_coord (off : ℤ) (v : ℚ) (canvas_extent target_extent : ℤ) : ℤ :=
  clamp_overlay (pyRound (v + (off : ℚ))) canvas_extent target_extent

/-- The x coordinate of the `video_main` overlay as `render_clips`
computes it from the layout values. -/
def render_overlay_x (anchor : Anchor) (vx : ℚ)
    (canvas_width target_width target_height : ℤ) : ℤ :=
  overlay_coord (anchor_offset anchor target_width target_height).1 vx
    canvas_width target_width

/-! ## pipeline.py: process_job / cleanup, workspace.py: _worker

The pipeline's external collaborators (yt-dlp, ffprobe, ffmpeg, whisper,
the publish delay) are modelled by an environment that says, for each
call, whether it returns normally or raises, and with which message.
Exception propagation in `process_job` is modelled by returning the
partial trace together with the escaped message. -/

/-- Outcomes of the external collaborator calls made by
`ClipperPipeline.process_job`, in call order. -/
structure PipelineEnv where
  download : Except String Unit
  probe : Except String ℚ
  render : Except String Unit
  transcribe : Except String Unit
  publish : Except String Unit

/-- Embedding of `ClipperPipeline.cleanup`: the download and processing
scratch directories are removed; the clips directory is removed only when
the job's status is `completed`.  (Best-effort `OSError` suppression is
modelled as the removal succeeding.) -/
def cleanup (j : JobState) : JobState :=
  if j.status = JobStage.completed then
    { j with downloadDirPresent := false, processingDirPresent := false,
             clipsDirPresent := false }
  else
    { j with downloadDirPresent := false, processingDirPresent := false }

/-- The result of one `process_job` call: the job states after each
mutation (each `update_status` call and the final `cleanup`), in order,
and the message of the exception that escaped, if any. -/
structure RunResult where
  trace : List JobState
  failMsg : Option String
  deriving DecidableEq, Repr

/-- Embedding of `ClipperPipeline.process_job` (pipeline.py lines
430-466).  The statuses are set in source order (`downloading`,
`processing`, `publishing`, `completed`); `cleanup` is called only at the
very end of the function, after the `completed` transition — there is no
`try`/`finally` around the body, so an exception from any collaborator
escapes before `cleanup` is reached. -/
def process_job (env : PipelineEnv) (j0 : JobState) : RunResult :=
  let j1 := update_status j0 JobStage.downloading none
  match env.download with
  | .error m => ⟨[j1], some m⟩
  | .ok _ =>
    let j2 := update_status j1 JobStage.processing none
    match env.probe with
    | .error m => ⟨[j1, j2], some m⟩
    | .ok _ =>
      match env.render with
      | .error m => ⟨[j1, j2], some m⟩
      | .ok _ =>
        match env.transcribe with
        | .error m => ⟨[j1, j2], some m⟩
        | .ok _ =>
          let j3 := update_status j2 JobStage.publishing none
          match env.publish with
          | .error m => ⟨[j1, j2, j3], some m⟩
          | .ok _ =>
            let j4 := update_status j3 JobStage.completed none
            ⟨[j1, j2, j3, j4, cleanup j4], none⟩

/-- Embedding of `WorkspaceController._worker` for one dequeued job: run
`process_job`; if an exception escapes, transition the job to `failed`
with the captured message (`job.update_status(JobStage.FAILED,
str(exc))`).  The worker's own `finally` block only resets `active_job`
and acknowledges the queue; it touches no directory.  Returns the list of
successive job states. -/
def worker_run (env : PipelineEnv) (j0 : JobState) : List JobState :=
  let r := process_job env j0
  match r.failMsg with
  | none => r.trace
  | some m =>
    r.trace ++ [update_status ((r.trace.getLast?).getD j0) JobStage.failed
      (some m)]

/-- The job state after the worker finished with the job. -/
def final_state (env : PipelineEnv) (j0 : JobState) : JobState :=
  ((worker_run env j0).getLast?).getD j0

/-- The GUI's `_update_job` re-application of an emitted stage
(ClipperStudio_GUI.py lines 542-545): a `FAILED` event re-applies the
job's stored error, any other event clears it. -/
def gui_update (j : JobState) (stage : JobStage) : JobState :=
  if stage = JobStage.failed then update_status j stage j.error
  else update_status j stage none

/-- `error` is set exactly on `failed`, and a set error is non-empty. -/
def errorInvariant (j : JobState) : Prop :=
  (j.error ≠ none ↔ j.status = JobStage.failed) ∧
    (∀ m, j.error = some m → m ≠ "")

/-- A freshly submitted job: `Queued`, no error, all directories created
by `WorkspaceController.submit`. -/
def job0 : JobState :=
  { status := JobStage.queued, error := none, downloadDirPresent := true,
    processingDirPresent := true, clipsDirPresent := true }

/-- An environment in which the download step raises (the pipeline's own
`RuntimeError` message) and everything else would succeed. -/
def envDownloadFail : PipelineEnv :=
  { download := Except.error "Download fallito: nessun file creato",
    probe := Except.ok 0, render := Except.ok (), transcribe := Except.ok (),
    publish := Except.ok () }

/-- An environment in which every collaborator call succeeds. -/
def envAllOk : PipelineEnv :=
  { download := Except.ok (), probe := Except.ok 0, render := Except.ok (),
    transcribe := Except.ok (), publish := Except.ok () }

/-! ## Lemmas about the planner loop -/

/-- When the floored advance is not positive, the loop never exits once
`start < duration`: for every fuel the loop is still running. -/
lemma clipLoop_none_of_step_nonpos (cd ov : ℤ) (d : ℚ) (h : cd - ov ≤ 0) :
    ∀ (fuel : ℕ) (s : ℚ), s < d → clipLoop cd ov d fuel s = none := by
  intro fuel
  induction fuel with
  | zero => intro s _; rfl
  | succ n ih =>
      intro s hs
      have hstep : ((cd : ℚ)) - (ov : ℚ) ≤ 0 := by exact_mod_cast h
      have hs' : s + (cd : ℚ) - (ov : ℚ) < d := by linarith
      have hnb : ¬ d ≤ s + (cd : ℚ) - (ov : ℚ) := not_le.mpr hs'
      simp only [clipLoop, if_pos hs, if_neg hnb, ih _ hs', Option.map_none']

/-- Every clip the loop emits lies inside `[0, d]` with positive length,
as long as the initial start is non-negative. -/
lemma clipLoop_bounds (cd ov : ℤ) (d : ℚ) (hcd : 1 ≤ cd) :
    ∀ (fuel : ℕ) (s : ℚ) (cs : List (ℚ × ℚ)), 0 ≤ s →
      clipLoop cd ov d fuel s = some cs →
      ∀ c ∈ cs, 0 ≤ c.1 ∧ c.1 < c.2 ∧ c.2 ≤ d := by
  intro fuel
  induction fuel with
  | zero => intro s cs _ heq; exact absurd heq (by simp [clipLoop])
  | succ n ih =>
      intro s cs hs0 heq c hc
      by_cases hlt : s < d
      · have hclip : 0 ≤ s ∧ s < min (s + (cd : ℚ)) d ∧
            min (s + (cd : ℚ)) d ≤ d := by
          refine ⟨hs0, lt_min ?_ hlt, min_le_right _ _⟩
          have : (1 : ℚ) ≤ (cd : ℚ) := by exact_mod_cast hcd
          linarith
        by_cases hbrk : d ≤ s + (cd : ℚ) - (ov : ℚ)
        · simp only [clipLoop, if_pos hlt, if_pos hbrk, Option.some_inj] at heq
          subst heq
          simp only [List.mem_singleton] at hc
          subst hc
          exact hclip
        · simp only [clipLoop, if_pos hlt, if_neg hbrk] at heq
          rcases Option.map_eq_some'.mp heq with ⟨l, hl, rfl⟩
          rcases List.mem_cons.mp hc with rfl | hmem
          · exact hclip
          · by_cases hstep : cd - ov ≤ 0
            · exact absurd hl (by
                rw [clipLoop_none_of_step_nonpos cd ov d hstep]
                · simp
                · have hstep' : ((cd : ℚ)) - (ov : ℚ) ≤ 0 := by
                    exact_mod_cast hstep
                  linarith)
            · have hpos : (0 : ℚ) < (cd : ℚ) - (ov : ℚ) := by
                push_neg at hstep
                exact_mod_cast hstep
              exact ih (s + (cd : ℚ) - (ov : ℚ)) l (by linarith) hl c hmem
      · simp only [clipLoop, if_neg hlt, Option.some_inj] at heq
        subst heq
        simp at hc

lemma mul_step_lt_of_lt_count {d st : ℚ} (hst : 0 < st) {k : ℕ}
    (hk : k < (⌈d / st⌉).toNat) : (k : ℚ) * st < d := by
  have h1 : (k : ℤ) < ⌈d / st⌉ := Int.lt_toNat.mp hk
  have h2 : (k : ℚ) < d / st := by exact_mod_cast Int.lt_ceil.mp h1
  exact (lt_div_iff₀ hst).mp h2

lemma le_mul_step_of_count_le {d st : ℚ} (hst : 0 < st) {k : ℕ}
    (hk : (⌈d / st⌉).toNat ≤ k) : d ≤ (k : ℚ) * st := by
  have h1 : ⌈d / st⌉ ≤ (k : ℤ) := Int.toNat_le.mp hk
  have h2 : d / st ≤ (k : ℚ) := by exact_mod_cast Int.ceil_le.mp h1
  exact (div_le_iff₀ hst).mp h2

lemma one_le_count {d st : ℚ} (hst : 0 < st) (hd : 0 < d) :
    1 ≤ (⌈d / st⌉).toNat := by
  have : (0 : ℤ) < ⌈d / st⌉ := Int.ceil_pos.mpr (div_pos hd hst)
  omega

/-- Closed form of the loop when the advance `cd - ov` is positive:
starting at `k * step` with `m` clips still to emit (`k + m` equal to
the total count) and at least `m` fuel, the loop returns the clips
`(i*step, min (i*step + cd) d)` for `i = k, …, k+m-1`. -/
lemma clipLoop_closed_aux (cd ov : ℤ) (d : ℚ) (hstep : ov < cd) :
    ∀ (m k fuel : ℕ),
      k + m = (⌈d / ((cd - ov : ℤ) : ℚ)⌉).toNat → 1 ≤ m → m ≤ fuel →
      clipLoop cd ov d fuel ((k : ℚ) * ((cd - ov : ℤ) : ℚ)) =
        some ((List.range' k m).map (fun (i : ℕ) =>
          ((i : ℚ) * ((cd - ov : ℤ) : ℚ),
           min ((i : ℚ) * ((cd - ov : ℤ) : ℚ) + (cd : ℚ)) d))) := by
  set st : ℚ := ((cd - ov : ℤ) : ℚ) with hst_def
  have hst : 0 < st := by
    rw [hst_def]
    exact_mod_cast sub_pos.mpr hstep
  intro m
  induction m with
  | zero => intro k fuel _ h1 _; omega
  | succ m ih =>
      intro k fuel hkm _ hfuel
      obtain ⟨f, rfl⟩ : ∃ f, fuel = f + 1 := ⟨fuel - 1, by omega⟩
      have hkN : k < (⌈d / st⌉).toNat := by omega
      have hklt : (k : ℚ) * st < d := mul_step_lt_of_lt_count hst hkN
      have hstart' : (k : ℚ) * st + (cd : ℚ) - (ov : ℚ)
          = ((k + 1 : ℕ) : ℚ) * st := by
        rw [hst_def]; push_cast; ring
      cases m with
      | zero =>
          have hge : d ≤ ((k + 1 : ℕ) : ℚ) * st :=
            le_mul_step_of_count_le hst (by omega)
          simp only [clipLoop, if_pos hklt]
          rw [hstart', if_pos hge]
          simp [List.range']
      | succ m' =>
          have hk1N : k + 1 < (⌈d / st⌉).toNat := by omega
          have hlt' : ((k + 1 : ℕ) : ℚ) * st < d :=
            mul_step_lt_of_lt_count hst hk1N
          have hnb : ¬ d ≤ ((k + 1 : ℕ) : ℚ) * st := not_le.mpr hlt'
          simp only [clipLoop, if_pos hklt]
          rw [hstart', if_neg hnb, ih (k + 1) f (by omega) (by omega) (by omega)]
          simp [List.range'_succ]

/-- With a positive floored advance and enough fuel, the loop started at 0
returns exactly the clips `rawClip 0, …, rawClip (count-1)`; and when the
floored overlap is 0, every clip but the last ends strictly before the
duration. -/
lemma clipLoop_walk (cd ov : ℤ) (d : ℚ) (hd : 0 < d)
    (hstep : max 0 ov < max 1 cd) (fuel : ℕ)
    (hfuel : rawClipCount d cd ov ≤ fuel) :
    clipLoop (max 1 cd) (max 0 ov) d fuel 0 =
      some ((List.range (rawClipCount d cd ov)).map (rawClip d cd ov)) ∧
    (ov ≤ 0 → ∀ i, i + 1 < rawClipCount d cd ov → (rawClip d cd ov i).2 < d) := by
  have hstep' : (0 : ℚ) < ((max 1 cd - max 0 ov : ℤ) : ℚ) := by
    exact_mod_cast sub_pos.mpr hstep
  have hcount : rawClipCount d cd ov
      = (⌈d / ((max 1 cd - max 0 ov : ℤ) : ℚ)⌉).toNat := by
    simp [rawClipCount, planStep]
  have h1 : 1 ≤ rawClipCount d cd ov := by
    rw [hcount]; exact one_le_count hstep' hd
  have hfun : (fun (i : ℕ) =>
      ((i : ℚ) * ((max 1 cd - max 0 ov : ℤ) : ℚ),
       min ((i : ℚ) * ((max 1 cd - max 0 ov : ℤ) : ℚ) + ((max 1 cd : ℤ) : ℚ)) d))
      = rawClip d cd ov := by
    funext i
    simp [rawClip, planStep]
  constructor
  · rw [List.range_eq_range', ← hfun]
    have key := clipLoop_closed_aux (max 1 cd) (max 0 ov) d hstep
      (rawClipCount d cd ov) 0 fuel (by omega) h1 hfuel
    simp only [Nat.cast_zero, zero_mul] at key
    exact key
  · intro hov i hi
    have hov0 : max 0 ov = 0 := max_eq_left hov
    rw [hcount] at hi
    have hlt : ((i + 1 : ℕ) : ℚ) * ((max 1 cd - max 0 ov : ℤ) : ℚ) < d :=
      mul_step_lt_of_lt_count hstep' hi
    have hrw : (rawClip d cd ov i).2
        = min (((i : ℚ)) * ((max 1 cd - max 0 ov : ℤ) : ℚ)
            + ((max 1 cd : ℤ) : ℚ)) d := by
      simp [rawClip, planStep]
    rw [hrw]
    have heq : ((i : ℚ)) * ((max 1 cd - max 0 ov : ℤ) : ℚ) + ((max 1 cd : ℤ) : ℚ)
        = ((i + 1 : ℕ) : ℚ) * ((max 1 cd - max 0 ov : ℤ) : ℚ) := by
      rw [hov0]
      push_cast
      ring
    calc min (((i : ℚ)) * ((max 1 cd - max 0 ov : ℤ) : ℚ)
            + ((max 1 cd : ℤ) : ℚ)) d
        ≤ ((i : ℚ)) * ((max 1 cd - max 0 ov : ℤ) : ℚ) + ((max 1 cd : ℤ) : ℚ) :=
          min_le_left _ _
      _ < d := by rw [heq]; exact hlt

/-! ## Lemmas about the final-clip fixup -/

lemma adjustFinal_eq (fmin fmax : ℤ) (clips : List (ℚ × ℚ)) (h : clips ≠ []) :
    adjustFinal fmin fmax clips =
      clips.dropLast ++
        [adjustLast fmin fmax clips.length (clips.getLast h)] := by
  simp only [adjustFinal, List.getLast?_eq_getLast_of_ne_nil h]

lemma adjustLast_bounds (fmin fmax : ℤ) (hfmax : 1 ≤ fmax) (count : ℕ)
    (c : ℚ × ℚ) (d : ℚ) (hc : 0 ≤ c.1 ∧ c.1 < c.2 ∧ c.2 ≤ d) :
    0 ≤ (adjustLast fmin fmax count c).1 ∧
      (adjustLast fmin fmax count c).1 < (adjustLast fmin fmax count c).2 ∧
      (adjustLast fmin fmax count c).2 ≤ d := by
  obtain ⟨h0, hlt, hle⟩ := hc
  have hfmax' : (1 : ℚ) ≤ (fmax : ℚ) := by exact_mod_cast hfmax
  unfold adjustLast
  split_ifs with h1 h2
  all_goals try dsimp only
  · refine ⟨le_max_left _ _, max_lt (lt_of_le_of_lt h0 hlt) ?_, hle⟩
    have : c.2 - c.1 < (fmin : ℚ) := h1.1
    linarith
  · refine ⟨?_, ?_, hle⟩
    · have : (fmax : ℚ) < c.2 - c.1 := h2
      linarith
    · linarith
  · exact ⟨h0, hlt, hle⟩

/-- Every clip of a returned plan lies inside `[0, duration]` with
positive length, provided `final_max ≥ 1`. -/
lemma generate_bounds (fuel : ℕ) (d : ℚ) (cd ov fmin fmax : ℤ)
    (hd : 0 < d) (hfmax : 1 ≤ fmax) (clips : List (ℚ × ℚ))
    (h : generate_clip_plan fuel d cd ov fmin fmax = some clips) :
    ∀ c ∈ clips, 0 ≤ c.1 ∧ c.1 < c.2 ∧ c.2 ≤ d := by
  unfold generate_clip_plan at h
  rw [if_neg (not_le.mpr hd)] at h
  rcases Option.map_eq_some'.mp h with ⟨raw, hraw, rfl⟩
  have hbounds := clipLoop_bounds (max 1 cd) (max 0 ov) d (le_max_left _ _)
    fuel 0 raw le_rfl hraw
  intro c hc
  rcases eq_or_ne raw [] with rfl | hne
  · simp [adjustFinal] at hc
  · rw [adjustFinal_eq fmin fmax raw hne] at hc
    rcases List.mem_append.mp hc with hmem | hmem
    · exact hbounds c (List.mem_of_mem_dropLast hmem)
    · simp only [List.mem_singleton] at hmem
      subst hmem
      exact adjustLast_bounds fmin fmax hfmax raw.length (raw.getLast hne) d
        (hbounds _ (List.getLast_mem hne))

/-- Concrete clip count of the spec's worked example. -/
lemma rawClipCount_ex : rawClipCount 260 120 0 = 3 := by
  have h : ((planStep 120 0 : ℤ) : ℚ) = 120 := by norm_num [planStep]
  rw [rawClipCount, h]
  have h2 : ⌈(260 : ℚ) / 120⌉ = 3 := by
    rw [Int.ceil_eq_iff]
    norm_num
  rw [h2]
  rfl

/-! ## Lemmas about the job-state invariant -/

lemma errorInvariant_of_none (j : JobState) (hj : j.error = none)
    (hs : j.status ≠ JobStage.failed) : errorInvariant j := by
  constructor
  · simp [hj, hs]
  · intro m hm
    rw [hj] at hm
    exact absurd hm (by simp)

lemma errorInvariant_update_ok (j : JobState) (st : JobStage)
    (hst : st ≠ JobStage.failed) :
    errorInvariant (update_status j st none) := by
  constructor
  · simp [update_status, hst]
  · intro m hm
    simp [update_status] at hm

lemma errorInvariant_update_failed (j : JobState) (m : String) (hm : m ≠ "") :
    errorInvariant (update_status j JobStage.failed (some m)) := by
  constructor
  · simp [update_status]
  · intro m' hm'
    simp only [update_status] at hm'
    injection hm' with h
    subst h
    exact hm

lemma errorInvariant_cleanup (j : JobState) (h : errorInvariant j) :
    errorInvariant (cleanup j) := by
  have hs : (cleanup j).status = j.status := by
    unfold cleanup
    split_ifs <;> rfl
  have he : (cleanup j).error = j.error := by
    unfold cleanup
    split_ifs <;> rfl
  exact ⟨by rw [hs, he]; exact h.1, by rw [he]; exact h.2⟩

/-! ## Claims -/

/-- Claim C1, counterexample: with `duration = 10`, `clipDuration = 5`,
`overlap = 2`, the loop emits `(6, 10)` — a clip whose end equals the
duration — and then emits a further clip `(9, 10)`, because the only stop
test is `new start ≥ duration` and the new start `11 - 2 = 9` is still
below 10.  This refutes "no further clip is emitted after a clip whose end
equals duration". -/
theorem claim_C1_counterexample :
    clipLoop (max 1 5) (max 0 2) 10 10 0 =
      some [(0, 5), (3, 8), (6, 10), (9, 10)] ∧
    (([((0 : ℚ), (5 : ℚ)), (3, 8), (6, 10), (9, 10)]).get ⟨2, by norm_num⟩).2
      = 10 ∧
    2 + 1 < ([((0 : ℚ), (5 : ℚ)), (3, 8), (6, 10), (9, 10)]).length := by
  refine ⟨by norm_num [clipLoop], by norm_num [List.get], by norm_num⟩

/-- Claim C1 (amended): for every duration > 0, with `clipDuration`
floored to 1 and `overlap` floored to 0 and provided the floored overlap
is strictly below the floored clip duration, the main loop emits exactly
the clips `(i*step, min (i*step + clipDuration, duration))` for
`i = 0, …, n-1` — walking forward from `start = 0` and advancing by
`step = clipDuration - overlap` — where `n` is the least count whose next
start reaches the duration; the loop stops only when the new start
reaches `duration`.  When the floored overlap is 0, no clip other than
the last ends at `duration`, so no further clip follows a clip whose end
equals the duration. -/
theorem claim_C1 (cd ov : ℤ) (d : ℚ) (hd : 0 < d)
    (hstep : max 0 ov < max 1 cd) (fuel : ℕ)
    (hfuel : rawClipCount d cd ov ≤ fuel) :
    clipLoop (max 1 cd) (max 0 ov) d fuel 0 =
      some ((List.range (rawClipCount d cd ov)).map (rawClip d cd ov)) ∧
    (ov ≤ 0 → ∀ i, i + 1 < rawClipCount d cd ov →
      (rawClip d cd ov i).2 < d) :=
  clipLoop_walk cd ov d hd hstep fuel hfuel

theorem claim_C1_witness :
    (0 : ℚ) < 260 ∧ max (0 : ℤ) 0 < max 1 120 ∧
    rawClipCount 260 120 0 ≤ 10 ∧
    clipLoop (max 1 120) (max 0 0) 260 10 0 =
      some ((List.range (rawClipCount 260 120 0)).map (rawClip 260 120 0)) :=
  ⟨by norm_num, by decide, le_of_eq_of_le rawClipCount_ex (by decide),
   (claim_C1 120 0 260 (by norm_num) (by decide) 10
     (le_of_eq_of_le rawClipCount_ex (by decide))).1⟩

/-- Claim C2: the final-clip fixup keeps every clip but the last
unchanged, never changes the last clip's end, and moves the last clip's
start exactly as specified: pulled back by the `finalMin` deficit
(clamped at 0) when the clip is short and not alone, else pulled forward
to make the length exactly `finalMax` when too long; and the worked
example `duration 260, clipDuration 120, overlap 0, finalMin 120,
finalMax 240` yields `(0,120), (120,240), (140,260)`. -/
theorem claim_C2 (fmin fmax : ℤ) (clips : List (ℚ × ℚ)) (h : clips ≠ []) :
    (adjustFinal fmin fmax clips).length = clips.length ∧
    (adjustFinal fmin fmax clips).dropLast = clips.dropLast ∧
    (adjustFinal fmin fmax clips).getLast? = some
      (if (clips.getLast h).2 - (clips.getLast h).1 < (fmin : ℚ)
          ∧ 1 < clips.length then
        (max 0 ((clips.getLast h).1 -
          ((fmin : ℚ) - ((clips.getLast h).2 - (clips.getLast h).1))),
         (clips.getLast h).2)
      else if (fmax : ℚ) < (clips.getLast h).2 - (clips.getLast h).1 then
        ((clips.getLast h).2 - (fmax : ℚ), (clips.getLast h).2)
      else clips.getLast h) ∧
    generate_clip_plan 10 260 120 0 120 240 =
      some [(0, 120), (120, 240), (140, 260)] := by
  have hlen1 : 1 ≤ clips.length := List.length_pos.mpr h
  rw [adjustFinal_eq fmin fmax clips h]
  refine ⟨?_, List.dropLast_concat, ?_, ?_⟩
  · simp only [List.length_append, List.length_dropLast, List.length_singleton]
    omega
  · rw [List.getLast?_concat]
    rfl
  · norm_num [generate_clip_plan, clipLoop, adjustFinal, adjustLast]

theorem claim_C2_witness :
    ([((0 : ℚ), (120 : ℚ)), (120, 240), (240, 260)] : List (ℚ × ℚ)) ≠ [] ∧
    (adjustFinal 120 240
        [((0 : ℚ), (120 : ℚ)), (120, 240), (240, 260)]).dropLast
      = ([((0 : ℚ), (120 : ℚ)), (120, 240), (240, 260)]).dropLast :=
  ⟨by simp,
   (claim_C2 120 240 [((0 : ℚ), (120 : ℚ)), (120, 240), (240, 260)]
     (by simp)).2.1⟩

/-- Claim C3, counterexample: with `final_max = 0` (a parameter
combination the claim quantifies over), the plan for `duration 10,
clipDuration 5` contains the clip `(10, 10)`, whose start is not below
its end — the `finalMax` trim moved the last clip's start onto its end. -/
theorem claim_C3_counterexample :
    generate_clip_plan 10 10 5 0 0 0 = some [(0, 5), (10, 10)] ∧
    ((10 : ℚ), (10 : ℚ)) ∈ [((0 : ℚ), (5 : ℚ)), (10, 10)] ∧
    ¬ (((10 : ℚ), (10 : ℚ)).1 < ((10 : ℚ), (10 : ℚ)).2) := by
  refine ⟨by norm_num [generate_clip_plan, clipLoop, adjustFinal, adjustLast],
    by simp, by norm_num⟩

/-- Claim C3 (amended): for every duration > 0 and every parameter
combination with `final_max ≥ 1`, every `(start, end)` pair the planner
returns satisfies `0 ≤ start < end ≤ duration`, and every `ClipTiming`
derived from the plan by `process_job` has strictly positive length and
lies within the source. -/
theorem claim_C3 (fuel : ℕ) (d : ℚ) (cd ov fmin fmax : ℤ)
    (hd : 0 < d) (hfmax : 1 ≤ fmax) (clips : List (ℚ × ℚ))
    (h : generate_clip_plan fuel d cd ov fmin fmax = some clips) :
    (∀ c ∈ clips, 0 ≤ c.1 ∧ c.1 < c.2 ∧ c.2 ≤ d) ∧
    (∀ ct ∈ make_clip_plan clips,
      0 ≤ ct.start ∧ ct.start < ct.«end» ∧ ct.«end» ≤ d ∧
      ct.duration = ct.«end» - ct.start ∧ 0 < ct.duration) := by
  have hb := generate_bounds fuel d cd ov fmin fmax hd hfmax clips h
  refine ⟨hb, ?_⟩
  intro ct hct
  unfold make_clip_plan at hct
  rcases List.mem_map.mp hct with ⟨p, hp, rfl⟩
  have hmem : p.2 ∈ clips := List.snd_mem_of_mem_enum hp
  obtain ⟨h0, hlt, hle⟩ := hb p.2 hmem
  exact ⟨h0, hlt, hle, rfl, sub_pos.mpr hlt⟩

theorem claim_C3_witness :
    0 ≤ ((140 : ℚ), (260 : ℚ)).1 ∧
    ((140 : ℚ), (260 : ℚ)).1 < ((140 : ℚ), (260 : ℚ)).2 ∧
    ((140 : ℚ), (260 : ℚ)).2 ≤ 260 :=
  (claim_C3 10 260 120 0 120 240 (by norm_num) (by decide)
      [(0, 120), (120, 240), (140, 260)]
      (by norm_num [generate_clip_plan, clipLoop, adjustFinal, adjustLast])).1
    (140, 260) (by simp)

/-- Claim C4, counterexample: `duration 90 < clipDuration 120` but
`overlap 40`, so after the first clip `(0, 90)` the new start is
`120 - 40 = 80 < 90` and a second clip is emitted; the result has two
clips, refuting "duration < clipDuration yields exactly one clip". -/
theorem claim_C4_counterexample :
    generate_clip_plan 10 90 120 40 60 240 = some [(0, 90), (30, 90)] ∧
    ([((0 : ℚ), (90 : ℚ)), (30, 90)]).length ≠ 1 := by
  refine ⟨by norm_num [generate_clip_plan, clipLoop, adjustFinal, adjustLast],
    by simp⟩

/-- Claim C4 (amended): for every duration with
`0 < duration ≤ clipDuration - overlap` (floored values; with
`overlap = 0` this is the claim's `duration < clipDuration` case), the
planner yields exactly one clip: `(0, duration)`, on which the `finalMin`
extension is always skipped (single clip) while the `finalMax` trim still
applies — the lone clip becomes `(duration - finalMax, duration)` when
`duration > finalMax`.  The example `duration 90, clipDuration 120,
overlap 0, finalMin 60, finalMax 240` yields exactly `(0, 90)`. -/
theorem claim_C4 (fuel : ℕ) (d : ℚ) (cd ov fmin fmax : ℤ) (hd : 0 < d)
    (hspan : d ≤ ((max 1 cd - max 0 ov : ℤ) : ℚ)) (hfuel : 1 ≤ fuel) :
    generate_clip_plan fuel d cd ov fmin fmax =
      some [if (fmax : ℚ) < d then (d - (fmax : ℚ), d) else ((0 : ℚ), d)] ∧
    generate_clip_plan 10 90 120 0 60 240 = some [(0, 90)] := by
  constructor
  · obtain ⟨f, rfl⟩ : ∃ f, fuel = f + 1 := ⟨fuel - 1, by omega⟩
    have hcd : d ≤ ((max 1 cd : ℤ) : ℚ) := by
      refine le_trans hspan ?_
      have : (max 1 cd - max 0 ov : ℤ) ≤ max 1 cd := by omega
      exact_mod_cast this
    unfold generate_clip_plan
    rw [if_neg (not_le.mpr hd)]
    have hloop : clipLoop (max 1 cd) (max 0 ov) d (f + 1) 0 =
        some [(0, min (0 + ((max 1 cd : ℤ) : ℚ)) d)] := by
      have hbrk : d ≤ 0 + ((max 1 cd : ℤ) : ℚ) - ((max 0 ov : ℤ) : ℚ) := by
        have hcast : ((max 1 cd - max 0 ov : ℤ) : ℚ)
            = ((max 1 cd : ℤ) : ℚ) - ((max 0 ov : ℤ) : ℚ) := by
          push_cast
          ring
        rw [hcast] at hspan
        linarith
      simp only [clipLoop, if_pos hd, if_pos hbrk]
    rw [hloop]
    have hmin : min (0 + ((max 1 cd : ℤ) : ℚ)) d = d := by
      rw [zero_add]
      exact min_eq_right hcd
    rw [hmin]
    simp only [Option.map_some']
    congr 1
    unfold adjustFinal
    simp only [List.getLast?_singleton, List.dropLast_single]
    unfold adjustLast
    simp only [List.length_singleton]
    have hnot : ¬ (d - 0 < (fmin : ℚ) ∧ 1 < 1) := by simp
    rw [if_neg hnot]
    simp only [List.nil_append, sub_zero]
  · norm_num [generate_clip_plan, clipLoop, adjustFinal, adjustLast]

theorem claim_C4_witness :
    generate_clip_plan 10 90 120 0 60 240 = some [(0, 90)] :=
  (claim_C4 10 90 120 0 60 240 (by norm_num) (by norm_num) (by norm_num)).2

/-- Claim C5, counterexample: with canvasWidth 1080, targetWidth 1200,
anchor center at x = 540, the computed overlay x is
`round(540 - 1200/2) = -60`, which lies inside the clamp interval
`[-120, 0]` and is therefore returned unchanged — not forced to
`canvasWidth - targetWidth = -120` as the claim states. -/
theorem claim_C5_counterexample :
    render_overlay_x Anchor.center 540 1080 1200 675 = -60 ∧
    (-60 : ℤ) ≠ 1080 - 1200 := by
  refine ⟨?_, by decide⟩
  norm_num [render_overlay_x, overlay_coord, anchor_offset, pyRound,
    clamp_overlay]
  decide

/-- Claim C5 (amended): the overlay clamp restricts each axis to the
interval `[min(0, canvasExtent - targetExtent),
max(0, canvasExtent - targetExtent)]` and leaves any value already inside
that interval unchanged; in the `canvasWidth 1080, targetWidth 1200,
center anchor at x = 540` case the anchor-derived offset `-60` already
lies inside `[-120, 0]`, so the result is `-60`, not `-120`. -/
theorem claim_C5 (value c t : ℤ) :
    min 0 (c - t) ≤ clamp_overlay value c t ∧
    clamp_overlay value c t ≤ max 0 (c - t) ∧
    (min 0 (c - t) ≤ value → value ≤ max 0 (c - t) →
      clamp_overlay value c t = value) ∧
    render_overlay_x Anchor.center 540 1080 1200 675 = -60 := by
  refine ⟨?_, ?_, ?_, ?_⟩
  · unfold clamp_overlay
    split_ifs <;> omega
  · unfold clamp_overlay
    split_ifs <;> omega
  · intro h1 h2
    unfold clamp_overlay
    split_ifs <;> omega
  · norm_num [render_overlay_x, overlay_coord, anchor_offset, pyRound,
      clamp_overlay]
    decide

theorem claim_C5_witness :
    min 0 (1080 - 1200) ≤ (-60 : ℤ) ∧ (-60 : ℤ) ≤ max 0 (1080 - 1200) ∧
    clamp_overlay (-60) 1080 1200 = -60 :=
  ⟨by decide, by decide,
   (claim_C5 (-60) 1080 1200).2.2.1 (by decide) (by decide)⟩

/-- Claim C6, counterexample: a job with one planned clip whose delay is
still 0, under a base interval of 0 (the interval spinbox allows 0
minutes), makes the summed estimate 0, and `estimate_completion` returns
`None` even though the clip plan is non-empty — refuting "absent if and
only if the job has no planned clips". -/
theorem claim_C6_counterexample :
    estimate_completion 0 [⟨0, 0, 5, 5, 0⟩] = none ∧
    ([⟨0, 0, 5, 5, 0⟩] : List ClipTiming) ≠ [] :=
  ⟨rfl, by simp⟩

/-- Claim C6 (amended): `estimate_completion` is absent iff the job has
no planned clips or the summed estimate (per clip: the assigned delay if
non-zero, else `max 0 baseInterval`) is ≤ 0; with a non-empty plan and a
positive sum it returns the `format_timedelta` rendering of the sum; on
three clips each with delay 60 it returns "3m". -/
theorem claim_C6 (base : ℤ) (plan : List ClipTiming) :
    (estimate_completion base plan = none ↔
      plan = [] ∨ estimateSeconds base plan ≤ 0) ∧
    (plan ≠ [] → 0 < estimateSeconds base plan →
      estimate_completion base plan =
        some (format_timedelta (estimateSeconds base plan))) ∧
    estimate_completion 1200
      [⟨0, 0, 1, 1, 60⟩, ⟨1, 1, 2, 1, 60⟩, ⟨2, 2, 3, 1, 60⟩]
      = some "3m" := by
  refine ⟨?_, ?_, rfl⟩
  · unfold estimate_completion
    by_cases h1 : plan = []
    · simp [h1]
    · by_cases h2 : estimateSeconds base plan ≤ 0 <;> simp [h1, h2]
  · intro hne hpos
    unfold estimate_completion
    rw [if_neg hne, if_neg (not_le.mpr hpos)]

theorem claim_C6_witness :
    ([⟨0, 0, 1, 1, 60⟩, ⟨1, 1, 2, 1, 60⟩, ⟨2, 2, 3, 1, 60⟩] :
      List ClipTiming) ≠ [] ∧
    estimate_completion 1200
      [⟨0, 0, 1, 1, 60⟩, ⟨1, 1, 2, 1, 60⟩, ⟨2, 2, 3, 1, 60⟩] =
      some (format_timedelta (estimateSeconds 1200
        [⟨0, 0, 1, 1, 60⟩, ⟨1, 1, 2, 1, 60⟩, ⟨2, 2, 3, 1, 60⟩])) :=
  ⟨by simp,
   (claim_C6 1200 [⟨0, 0, 1, 1, 60⟩, ⟨1, 1, 2, 1, 60⟩, ⟨2, 2, 3, 1, 60⟩]).2.1
     (by simp) (by decide)⟩

/-- Claim C7, counterexample: when the download step raises,
`process_job` never reaches its `cleanup` call (there is no
`try`/`finally` in the source), so the failed job still has its download
and processing scratch directories — refuting "the per-job download and
processing scratch directories are removed unconditionally after the
pipeline finishes (success or failure)". -/
theorem claim_C7_counterexample :
    (final_state envDownloadFail job0).status = JobStage.failed ∧
    (final_state envDownloadFail job0).downloadDirPresent = true ∧
    (final_state envDownloadFail job0).processingDirPresent = true ∧
    (final_state envDownloadFail job0).clipsDirPresent = true :=
  ⟨rfl, rfl, rfl, rfl⟩

/-- Claim C7 (amended): cleanup runs only on the success path, after the
job has been marked `Completed`; a completed job's download, processing
and clips directories are all removed (the clips directory because the
status is `Completed` at the call site), while a failed job keeps all
three directories untouched. -/
theorem claim_C7 (env : PipelineEnv) (j0 : JobState)
    (hd : j0.downloadDirPresent = true) (hp : j0.processingDirPresent = true)
    (hc : j0.clipsDirPresent = true) :
    ((final_state env j0).status = JobStage.completed ∨
      (final_state env j0).status = JobStage.failed) ∧
    ((final_state env j0).status = JobStage.completed →
      (final_state env j0).downloadDirPresent = false ∧
      (final_state env j0).processingDirPresent = false ∧
      (final_state env j0).clipsDirPresent = false) ∧
    ((final_state env j0).status = JobStage.failed →
      (final_state env j0).downloadDirPresent = true ∧
      (final_state env j0).processingDirPresent = true ∧
      (final_state env j0).clipsDirPresent = true) := by
  obtain ⟨dl, pr, re, tr, pu⟩ := env
  rcases dl with m | u <;> rcases pr with m2 | dur <;>
    rcases re with m3 | u2 <;> rcases tr with m4 | u3 <;>
    rcases pu with m5 | u4 <;>
    simp [final_state, worker_run, process_job, update_status, cleanup,
      hd, hp, hc]

theorem claim_C7_witness :
    job0.downloadDirPresent = true ∧
    ((final_state envAllOk job0).status = JobStage.completed →
      (final_state envAllOk job0).downloadDirPresent = false ∧
      (final_state envAllOk job0).processingDirPresent = false ∧
      (final_state envAllOk job0).clipsDirPresent = false) :=
  ⟨rfl, (claim_C7 envAllOk job0 rfl rfl rfl).2.1⟩

/-- Claim C8: starting from a queued job with no error, every state the
worker run passes through satisfies "error is set iff stage is Failed,
and a set error is non-empty" — non-Failed transitions pass `None` for
the error and every transition to Failed passes the captured non-empty
message (non-emptiness of the collaborator failure messages is the
hypothesis; every message raised by this repository's own code is a
non-empty literal).  The GUI's re-application of an emitted stage also
preserves the invariant. -/
theorem claim_C8 (env : PipelineEnv) (j0 : JobState)
    (h0 : j0.status = JobStage.queued) (he : j0.error = none)
    (hdl : ∀ m, env.download = Except.error m → m ≠ "")
    (hpr : ∀ m, env.probe = Except.error m → m ≠ "")
    (hre : ∀ m, env.render = Except.error m → m ≠ "")
    (htr : ∀ m, env.transcribe = Except.error m → m ≠ "")
    (hpu : ∀ m, env.publish = Except.error m → m ≠ "") :
    (∀ s ∈ j0 :: worker_run env j0, errorInvariant s) ∧
    (∀ (s : JobState) (stage : JobStage), errorInvariant s →
      (stage = JobStage.failed → s.status = JobStage.failed) →
      errorInvariant (gui_update s stage)) := by
  constructor
  · obtain ⟨dl, pr, re, tr, pu⟩ := env
    simp only at hdl hpr hre htr hpu
    rcases dl with m | u
    · intro s hs
      simp [worker_run, process_job] at hs
      rcases hs with rfl | rfl | rfl
      · exact errorInvariant_of_none _ he (by simp [h0])
      · exact errorInvariant_update_ok _ _ (by simp)
      · exact errorInvariant_update_failed _ m (hdl m rfl)
    · rcases pr with m | dur
      · intro s hs
        simp [worker_run, process_job] at hs
        rcases hs with rfl | rfl | rfl | rfl
        · exact errorInvariant_of_none _ he (by simp [h0])
        · exact errorInvariant_update_ok _ _ (by simp)
        · exact errorInvariant_update_ok _ _ (by simp)
        · exact errorInvariant_update_failed _ m (hpr m rfl)
      · rcases re with m | u2
        · intro s hs
          simp [worker_run, process_job] at hs
          rcases hs with rfl | rfl | rfl | rfl
          · exact errorInvariant_of_none _ he (by simp [h0])
          · exact errorInvariant_update_ok _ _ (by simp)
          · exact errorInvariant_update_ok _ _ (by simp)
          · exact errorInvariant_update_failed _ m (hre m rfl)
        · rcases tr with m | u3
          · intro s hs
            simp [worker_run, process_job] at hs
            rcases hs with rfl | rfl | rfl | rfl
            · exact errorInvariant_of_none _ he (by simp [h0])
            · exact errorInvariant_update_ok _ _ (by simp)
            · exact errorInvariant_update_ok _ _ (by simp)
            · exact errorInvariant_update_failed _ m (htr m rfl)
          · rcases pu with m | u4
            · intro s hs
              simp [worker_run, process_job] at hs
              rcases hs with rfl | rfl | rfl | rfl | rfl
              · exact errorInvariant_of_none _ he (by simp [h0])
              · exact errorInvariant_update_ok _ _ (by simp)
              · exact errorInvariant_update_ok _ _ (by simp)
              · exact errorInvariant_update_ok _ _ (by simp)
              · exact errorInvariant_update_failed _ m (hpu m rfl)
            · intro s hs
              simp [worker_run, process_job] at hs
              rcases hs with rfl | rfl | rfl | rfl | rfl | rfl
              · exact errorInvariant_of_none _ he (by simp [h0])
              · exact errorInvariant_update_ok _ _ (by simp)
              · exact errorInvariant_update_ok _ _ (by simp)
              · exact errorInvariant_update_ok _ _ (by simp)
              · exact errorInvariant_update_ok _ _ (by simp)
              · exact errorInvariant_cleanup _
                  (errorInvariant_update_ok _ _ (by simp))
  · intro s stage hinv himpl
    unfold gui_update
    by_cases hst : stage = JobStage.failed
    · rw [if_pos hst]
      have hsf := himpl hst
      have hne : s.error ≠ none := hinv.1.mpr hsf
      obtain ⟨m, hm⟩ := Option.ne_none_iff_exists'.mp hne
      constructor
      · simp [update_status, hst, hm]
      · intro m' hm'
        simp only [update_status, hm] at hm'
        injection hm' with h
        subst h
        exact hinv.2 m hm
    · rw [if_neg hst]
      exact errorInvariant_update_ok s stage hst

theorem claim_C8_witness :
    errorInvariant job0 ∧ (∀ s ∈ job0 :: worker_run envAllOk job0,
      errorInvariant s) :=
  ⟨errorInvariant_of_none job0 rfl (by simp [job0]),
   (claim_C8 envAllOk job0 rfl rfl (fun m hm => by simp [envAllOk] at hm)
     (fun m hm => by simp [envAllOk] at hm)
     (fun m hm => by simp [envAllOk] at hm)
     (fun m hm => by simp [envAllOk] at hm)
     (fun m hm => by simp [envAllOk] at hm)).1⟩

/-- Claim C9: for every base and every non-negative range, under the
`randint` contract on the substitutable randomness source, the result is
an integer in `[max 0 (base - range), max 0 (base + range)]` (the sampled
value clamped to ≥ 0), and with range 0 the result is exactly
`max 0 base`. -/
theorem claim_C9 (b v : ℤ) (rng : ℤ → ℤ → ℤ) (hv : 0 ≤ v)
    (hrng : ∀ lo hi, lo ≤ hi → lo ≤ rng lo hi ∧ rng lo hi ≤ hi) :
    max 0 (b - v) ≤ randomise_interval b v rng ∧
    randomise_interval b v rng ≤ max 0 (b + v) ∧
    (v = 0 → randomise_interval b v rng = max 0 b) := by
  obtain ⟨h1, h2⟩ := hrng (b - v) (b + v) (by omega)
  unfold randomise_interval
  refine ⟨?_, ?_, ?_⟩
  · exact max_le_max le_rfl h1
  · exact max_le_max le_rfl h2
  · intro hv0
    subst hv0
    have heq : rng (b - 0) (b + 0) = b := by omega
    rw [heq]

theorem claim_C9_witness :
    max 0 (120 - 30) ≤ randomise_interval 120 30 (fun lo _ => lo) ∧
    randomise_interval 120 30 (fun lo _ => lo) ≤ max 0 (120 + 30) ∧
    randomise_interval 120 0 (fun lo _ => lo) = max 0 120 :=
  ⟨(claim_C9 120 30 (fun lo _ => lo) (by decide)
      (fun lo hi h => ⟨le_refl lo, h⟩)).1,
   (claim_C9 120 30 (fun lo _ => lo) (by decide)
      (fun lo hi h => ⟨le_refl lo, h⟩)).2.1,
   (claim_C9 120 0 (fun lo _ => lo) (by decide)
      (fun lo hi h => ⟨le_refl lo, h⟩)).2.2 rfl⟩

/-- Claim C10: for every duration > 0, the planner's loop terminates
exactly under the precondition that the floored overlap is strictly less
than the floored clip duration: when `max 0 overlap ≥ max 1 clipDuration`
the start never increases, so the loop never finishes regardless of fuel
(`generate_clip_plan` is `none` for every fuel); when
`max 0 overlap < max 1 clipDuration`, enough fuel makes the loop finish. -/
theorem claim_C10 (d : ℚ) (cd ov fmin fmax : ℤ) (hd : 0 < d) :
    (max 1 cd ≤ max 0 ov →
      ∀ fuel, generate_clip_plan fuel d cd ov fmin fmax = none) ∧
    (max 0 ov < max 1 cd → ∀ fuel, rawClipCount d cd ov ≤ fuel →
      (generate_clip_plan fuel d cd ov fmin fmax).isSome) := by
  constructor
  · intro habs fuel
    unfold generate_clip_plan
    rw [if_neg (not_le.mpr hd)]
    rw [clipLoop_none_of_step_nonpos (max 1 cd) (max 0 ov) d (by omega)
      fuel 0 hd]
    rfl
  · intro hstep fuel hfuel
    unfold generate_clip_plan
    rw [if_neg (not_le.mpr hd)]
    rw [(clipLoop_walk cd ov d hd hstep fuel hfuel).1]
    rfl

theorem claim_C10_witness :
    generate_clip_plan 7 10 5 5 0 100 = none :=
  (claim_C10 10 5 5 0 100 (by norm_num)).1 (by decide) 7

end ClipperStudio
